import Mathlib

/-
Verification development for the terraform-registry module registry core
(app/services/github_service.py): the flat TTL cache, the location resolver,
the tree scanner / structured cache builder, the version resolver and the
archive repackager are shallowly embedded below.  Python strings are modelled
as Lean `String` values manipulated through character-list primitives that
mirror the Python string methods used by the source.
-/

/-! ## String primitives with Python semantics -/

/-- Python `s.startswith(p)`: character-level prefix test. -/
def pyStartsWith (s p : String) : Bool := p.toList.isPrefixOf s.toList

/-- Python `s.endswith(p)`: character-level suffix test. -/
def pyEndsWith (s p : String) : Bool := p.toList.isSuffixOf s.toList

/-- Python `len(s)` (character count). -/
def pyLen (s : String) : Nat := s.toList.length

/-- Python slicing `s[n:]`. -/
def pyDropChars (s : String) (n : Nat) : String := String.mk (s.toList.drop n)

/-- Python `s.replace(a, b)` for single-character `a`, `b`. -/
def pyReplaceChar (a b : Char) (s : String) : String :=
  String.mk (s.toList.map fun c => if c = a then b else c)

/-- Python `s.lower()` (ASCII view). -/
def pyLower (s : String) : String := String.mk (s.toList.map Char.toLower)

/-- Python `s.lstrip(c)`: drop every leading occurrence of the character `c`. -/
def pyLstripChar (c : Char) (s : String) : String :=
  String.mk (s.toList.dropWhile fun x => x = c)

/-- Python `s.strip(c)`: drop leading and trailing occurrences of `c`. -/
def pyStripChar (c : Char) (s : String) : String :=
  String.mk (((s.toList.dropWhile fun x => x = c).reverse.dropWhile fun x => x = c).reverse)

/-- Splitting a character list on a separator character, Python `str.split` style:
the empty list yields `[[]]`, separators at the ends yield empty segments. -/
def splitChars (sep : Char) : List Char → List (List Char)
  | [] => [[]]
  | c :: cs =>
    if c = sep then [] :: splitChars sep cs
    else
      match splitChars sep cs with
      | [] => [[c]]
      | h :: t => (c :: h) :: t

/-- Python `s.split(sep)` for a single-character separator. -/
def pySplit (s : String) (sep : Char) : List String :=
  (splitChars sep s.toList).map String.mk

/-- Worker for Python `str.title`: capitalize the first letter of every
alphabetic run, lowercase the rest. -/
def titleChars : List Char → Bool → List Char
  | [], _ => []
  | c :: cs, prevAlpha =>
    (if c.isAlpha then (if prevAlpha then c.toLower else c.toUpper) else c) ::
      titleChars cs c.isAlpha

/-- Python `s.title()`. -/
def pyTitle (s : String) : String := String.mk (titleChars s.toList false)

/-- Python `"/".join(parts)`. -/
def joinSlash : List String → String
  | [] => ""
  | [a] => a
  | a :: b :: rest => a ++ "/" ++ joinSlash (b :: rest)

/-! ## Basic lemmas about the primitives -/

theorem toListAppend (s t : String) : (s ++ t).toList = s.toList ++ t.toList := by
  cases s; cases t; rfl

theorem mkToList (s : String) : String.mk s.toList = s := by
  cases s; rfl

theorem toListInj {s t : String} (h : s.toList = t.toList) : s = t := by
  cases s; cases t; exact congrArg String.mk h

theorem toListMk (l : List Char) : (String.mk l).toList = l := rfl

theorem isPrefixOf_eq_true_iff (p l : List Char) :
    p.isPrefixOf l = true ↔ ∃ t, l = p ++ t := by
  induction p generalizing l with
  | nil =>
    simp [List.isPrefixOf]
  | cons a as ih =>
    cases l with
    | nil => simp [List.isPrefixOf]
    | cons b bs =>
      simp only [List.isPrefixOf, Bool.and_eq_true, beq_iff_eq, ih, List.cons_append,
        List.cons.injEq]
      constructor
      · rintro ⟨hab, t, ht⟩
        exact ⟨t, hab.symm, ht⟩
      · rintro ⟨t, hba, ht⟩
        exact ⟨hba.symm, t, ht⟩

theorem pyStartsWith_iff_exists (s p : String) :
    pyStartsWith s p = true ↔ ∃ t : List Char, s.toList = p.toList ++ t := by
  unfold pyStartsWith
  exact isPrefixOf_eq_true_iff _ _

theorem dropAppendLen (l₁ l₂ : List Char) : (l₁ ++ l₂).drop l₁.length = l₂ := by
  induction l₁ with
  | nil => rfl
  | cons a as ih => simp [ih]

theorem appendRightEqSelf (l m : List Char) : l ++ m = l ↔ m = [] := by
  constructor
  · intro h
    have hl := congrArg List.length h
    rw [List.length_append] at hl
    have hm : m.length = 0 := by omega
    exact List.length_eq_zero.mp hm
  · intro h
    simp [h]

/-! ## Version Resolver (get_versions fallback and get_repo_tags)

Python source, `get_repo_tags` (lines 940-945) and the tag fallback of
`get_versions` (lines 607-613): for every tag object the version string is
computed as `tag["name"].lstrip("v")`.  `str.lstrip("v")` removes EVERY
leading `'v'` character (case-sensitively), not just the first one. -/

/-- The tag-name-to-version transform of the source: `tag["name"].lstrip("v")`. -/
def pyLstripV (s : String) : String := pyLstripChar 'v' s

/-- The version list computed by `get_repo_tags` from the upstream tag names
(order preserved, no sorting). -/
def getRepoTagsVersions (tagNames : List String) : List String :=
  tagNames.map pyLstripV

/-- The version strings computed by the tag fallback of `get_versions`
(the `"version"` field of each emitted object). -/
def getVersionsList (tagNames : List String) : List String :=
  tagNames.map pyLstripV

theorem dropWhile_v_cons (l : List Char) :
    ('v' :: l).dropWhile (fun x => x = 'v') = l.dropWhile (fun x => x = 'v') := by
  simp [List.dropWhile]

theorem isPrefixOf_v_dropWhile (l : List Char) :
    (['v'] : List Char).isPrefixOf (l.dropWhile fun x => x = 'v') = false := by
  induction l with
  | nil => rfl
  | cons c cs ih =>
    by_cases h : c = 'v'
    · simpa [List.dropWhile, h] using ih
    · simp only [List.dropWhile, h, decide_False, List.isPrefixOf, Bool.and_eq_false_iff]
      left
      simp only [beq_eq_false_iff_ne, ne_eq]
      exact fun hv => h hv.symm

/-- Claim C1 (counterexample): the claim predicts that only a single
leading `v` is stripped, so tag `"vv1.0"` should map to version `"v1.0"`.
The source computes `tag["name"].lstrip("v")`, which strips every leading
`'v'`: `"vv1.0"` maps to `"1.0"`, not `"v1.0"`. -/
theorem c1_single_strip_counterexample :
    getRepoTagsVersions ["v1.2.0", "1.2.0", "vv1.0"] = ["1.2.0", "1.2.0", "1.0"] ∧
    getVersionsList ["vv1.0"] = ["1.0"] ∧
    ("1.0" : String) ≠ "v1.0" := by
  refine ⟨by decide, by decide, by decide⟩

/-- Claim C1 (amended): the Version Resolver produces each version string by
stripping ALL leading `'v'` characters (case-sensitive) from the tag name:
prepending a `'v'` never changes the result, a tag that does not start with
`'v'` passes through unchanged, and no produced version string starts with
`'v'`.  Thus `v1.2.0` yields `1.2.0`, `1.2.0` is unchanged, and `vv1.0`
yields `1.0`. -/
theorem c1_strip_all_leading_v (tags : List String) :
    getRepoTagsVersions tags = tags.map pyLstripV ∧
    getVersionsList tags = getRepoTagsVersions tags ∧
    ∀ t ∈ tags,
      pyLstripV ("v" ++ t) = pyLstripV t ∧
      (pyStartsWith t "v" = false → pyLstripV t = t) ∧
      pyStartsWith (pyLstripV t) "v" = false := by
  refine ⟨rfl, rfl, ?_⟩
  intro t _
  refine ⟨?_, ?_, ?_⟩
  · unfold pyLstripV pyLstripChar
    rw [toListAppend]
    have hv : ("v" : String).toList = ['v'] := rfl
    rw [hv, List.singleton_append, dropWhile_v_cons]
  · intro h
    unfold pyLstripV pyLstripChar
    apply toListInj
    rw [toListMk]
    cases ht : t.toList with
    | nil => rfl
    | cons c cs =>
      have hc : ¬(c = 'v') := by
        intro hcv
        subst hcv
        unfold pyStartsWith at h
        rw [ht] at h
        simp [List.isPrefixOf] at h
      simp [List.dropWhile_cons, hc]
  · unfold pyLstripV pyLstripChar pyStartsWith
    have hmk : (String.mk (t.toList.dropWhile fun x => x = 'v')).toList
        = t.toList.dropWhile fun x => x = 'v' := rfl
    rw [hmk]
    have hv : ("v" : String).toList = ['v'] := rfl
    rw [hv]
    exact isPrefixOf_v_dropWhile t.toList

/-- Witness for C1 (amended), at tag `"vv1.0"`. -/
theorem c1_strip_all_leading_v_witness :
    pyLstripV ("v" ++ "vv1.0") = pyLstripV "vv1.0" ∧
    pyStartsWith (pyLstripV "vv1.0") "v" = false :=
  ⟨((c1_strip_all_leading_v ["vv1.0"]).2.2 "vv1.0" (by decide)).1,
   ((c1_strip_all_leading_v ["vv1.0"]).2.2 "vv1.0" (by decide)).2.2⟩

/-! ## The flattening transform

Python source, `_resolve_module_location` (lines 136-138) and
`get_modules_for_provider` (lines 366-368): the relative path is flattened by
`rel.replace("/", "_").replace("-", "_")`, then one leading `"modules_"`
(8 characters) or `"module_"` (7 characters) prefix is sliced off. -/

/-- The separator replacement: `rel.replace("/", "_").replace("-", "_")`. -/
def replaceSeps (s : String) : String :=
  pyReplaceChar '-' '_' (pyReplaceChar '/' '_' s)

/-- The full flattening transform of the source (replacement followed by the
single prefix strip, `modules_` checked before `module_`). -/
def flattenRel (rel : String) : String :=
  let s := replaceSeps rel
  if pyStartsWith s "modules_" then pyDropChars s 8
  else if pyStartsWith s "module_" then pyDropChars s 7
  else s

theorem pyDropChars_of_toList_append (s p : String) (t : List Char)
    (h : s.toList = p.toList ++ t) : pyDropChars s (pyLen p) = String.mk t := by
  unfold pyDropChars pyLen
  rw [h, dropAppendLen]

theorem pyStartsWith_of_toList_append (s p : String) (t : List Char)
    (h : s.toList = p.toList ++ t) : pyStartsWith s p = true :=
  (pyStartsWith_iff_exists s p).mpr ⟨t, h⟩

theorem replaceSeps_toList (s : String) :
    (replaceSeps s).toList =
      s.toList.map fun c =>
        if (if c = '/' then '_' else c) = '-' then '_' else (if c = '/' then '_' else c) := by
  unfold replaceSeps pyReplaceChar
  rw [toListMk, toListMk, List.map_map]
  rfl

theorem replaceSeps_append (s t : String) :
    (replaceSeps (s ++ t)).toList = (replaceSeps s).toList ++ (replaceSeps t).toList := by
  rw [replaceSeps_toList, replaceSeps_toList, replaceSeps_toList, toListAppend,
    List.map_append]

theorem startsWith_stacked (s p q pq : String) (t u : List Char)
    (hpq : pq.toList = p.toList ++ q.toList)
    (ht : s.toList = p.toList ++ t)
    (hu : t = q.toList ++ u) :
    pyStartsWith s pq = true := by
  apply pyStartsWith_of_toList_append s pq u
  rw [hpq, ht, hu, List.append_assoc]

theorem not_startsWith_modules_of_toList (s : String) (r : List Char)
    (h : s.toList = "module_".toList ++ r) :
    pyStartsWith s "modules_" = false := by
  by_contra hc
  rw [Bool.not_eq_false, pyStartsWith_iff_exists] at hc
  obtain ⟨t, ht⟩ := hc
  rw [h] at ht
  have e1 : ("module_".toList : List Char) = ['m', 'o', 'd', 'u', 'l', 'e', '_'] := by decide
  have e2 : ("modules_".toList : List Char) = ['m', 'o', 'd', 'u', 'l', 'e', 's', '_'] := by
    decide
  rw [e1, e2] at ht
  simp only [List.cons_append, List.nil_append] at ht
  injection ht with g1 ht; injection ht with g2 ht; injection ht with g3 ht
  injection ht with g4 ht; injection ht with g5 ht; injection ht with g6 ht
  injection ht with g7 ht
  exact absurd g7 (by decide)

/-- If the replaced form of `q` starts with `modules_`, flattening drops
exactly those 8 characters. -/
theorem flattenRel_of_modules (q : String) (r : List Char)
    (h : (replaceSeps q).toList = "modules_".toList ++ r) :
    flattenRel q = String.mk r := by
  unfold flattenRel
  have hc := pyStartsWith_of_toList_append (replaceSeps q) "modules_" r h
  simp only [hc, if_true]
  have h8 : pyLen "modules_" = 8 := by decide
  have := pyDropChars_of_toList_append (replaceSeps q) "modules_" r h
  rw [h8] at this
  exact this

/-- If the replaced form of `q` starts with `module_`, flattening drops
exactly those 7 characters (the `modules_` branch can never fire then,
because the seventh character is `_`, not `s`). -/
theorem flattenRel_of_module (q : String) (r : List Char)
    (h : (replaceSeps q).toList = "module_".toList ++ r) :
    flattenRel q = String.mk r := by
  unfold flattenRel
  have hc1 := not_startsWith_modules_of_toList (replaceSeps q) r h
  have hc2 := pyStartsWith_of_toList_append (replaceSeps q) "module_" r h
  simp only [hc1, hc2, if_true, Bool.false_eq_true, if_false]
  have h7 : pyLen "module_" = 7 := by decide
  have := pyDropChars_of_toList_append (replaceSeps q) "module_" r h
  rw [h7] at this
  exact this

/-- Claim C3 (counterexample): the relative path `"modules_modules/x"` has
leading path segment `"modules_modules"`, which is neither the literal
`"modules"` nor `"module"`; the claim then requires that its flattened form
not start with `"modules_"`.  But the source flattens it to `"modules_x"`:
the replacement yields `"modules_modules_x"`, and the single prefix strip
removes only the first 8 characters, exposing a second `"modules_"`. -/
theorem c3_flatten_counterexample :
    (pySplit "modules_modules/x" '/').headD "" ≠ "modules" ∧
    (pySplit "modules_modules/x" '/').headD "" ≠ "module" ∧
    flattenRel "modules_modules/x" = "modules_x" ∧
    pyStartsWith (flattenRel "modules_modules/x") "modules_" = true := by
  refine ⟨by decide, by decide, by decide, by decide⟩

/-- Claim C3 (amended): (a) for every relative path `p` whose leading path
segment is not the literal `modules` or `module` AND whose separator-replaced
form does not itself begin with two stacked `modules_`/`module_` prefixes,
`flatten(p)` does not start with `modules_` or `module_`; (b) for every path
that starts with the literal segment `modules` (resp. `module`) followed by a
separator, the prefix-strip rule removes exactly that one segment:
`flatten("modules/" ++ rest) = replaceSeps rest` (and likewise for
`module`). -/
theorem c3_flatten_amended (p : String)
    (h1 : (pySplit p '/').headD "" ≠ "modules")
    (h2 : (pySplit p '/').headD "" ≠ "module")
    (hs1 : pyStartsWith (replaceSeps p) "modules_modules_" = false)
    (hs2 : pyStartsWith (replaceSeps p) "modules_module_" = false)
    (hs3 : pyStartsWith (replaceSeps p) "module_modules_" = false)
    (hs4 : pyStartsWith (replaceSeps p) "module_module_" = false) :
    (pyStartsWith (flattenRel p) "modules_" = false ∧
     pyStartsWith (flattenRel p) "module_" = false) ∧
    ∀ rest : String,
      flattenRel ("modules/" ++ rest) = replaceSeps rest ∧
      flattenRel ("module/" ++ rest) = replaceSeps rest := by
  constructor
  · by_cases hm1 : pyStartsWith (replaceSeps p) "modules_" = true
    · obtain ⟨t, ht⟩ := (pyStartsWith_iff_exists _ _).mp hm1
      rw [flattenRel_of_modules p t ht]
      constructor
      · by_contra hc
        rw [Bool.not_eq_false, pyStartsWith_iff_exists] at hc
        obtain ⟨u, hu⟩ := hc
        rw [toListMk] at hu
        have hst := startsWith_stacked (replaceSeps p) "modules_" "modules_"
          "modules_modules_" t u (by decide) ht hu
        rw [hst] at hs1
        exact Bool.noConfusion hs1
      · by_contra hc
        rw [Bool.not_eq_false, pyStartsWith_iff_exists] at hc
        obtain ⟨u, hu⟩ := hc
        rw [toListMk] at hu
        have hst := startsWith_stacked (replaceSeps p) "modules_" "module_"
          "modules_module_" t u (by decide) ht hu
        rw [hst] at hs2
        exact Bool.noConfusion hs2
    · by_cases hm2 : pyStartsWith (replaceSeps p) "module_" = true
      · obtain ⟨t, ht⟩ := (pyStartsWith_iff_exists _ _).mp hm2
        rw [flattenRel_of_module p t ht]
        constructor
        · by_contra hc
          rw [Bool.not_eq_false, pyStartsWith_iff_exists] at hc
          obtain ⟨u, hu⟩ := hc
          rw [toListMk] at hu
          have hst := startsWith_stacked (replaceSeps p) "module_" "modules_"
            "module_modules_" t u (by decide) ht hu
          rw [hst] at hs3
          exact Bool.noConfusion hs3
        · by_contra hc
          rw [Bool.not_eq_false, pyStartsWith_iff_exists] at hc
          obtain ⟨u, hu⟩ := hc
          rw [toListMk] at hu
          have hst := startsWith_stacked (replaceSeps p) "module_" "module_"
            "module_module_" t u (by decide) ht hu
          rw [hst] at hs4
          exact Bool.noConfusion hs4
      · have hm1f : pyStartsWith (replaceSeps p) "modules_" = false :=
          Bool.not_eq_true _ ▸ Bool.of_not_eq_true hm1
        have hm2f : pyStartsWith (replaceSeps p) "module_" = false :=
          Bool.not_eq_true _ ▸ Bool.of_not_eq_true hm2
        unfold flattenRel
        simp [hm1f, hm2f]
  · intro rest
    constructor
    · have hts : (replaceSeps ("modules/" ++ rest)).toList
          = "modules_".toList ++ (replaceSeps rest).toList := by
        rw [replaceSeps_append]
        congr 1
      rw [flattenRel_of_modules _ _ hts]
      exact mkToList _
    · have hts : (replaceSeps ("module/" ++ rest)).toList
          = "module_".toList ++ (replaceSeps rest).toList := by
        rw [replaceSeps_append]
        congr 1
      rw [flattenRel_of_module _ _ hts]
      exact mkToList _

/-- Witness for C3 (amended), at the path `"net/vpc"`. -/
theorem c3_flatten_amended_witness :
    pyStartsWith (flattenRel "net/vpc") "modules_" = false ∧
    flattenRel ("modules/" ++ "net/vpc") = replaceSeps "net/vpc" :=
  ⟨((c3_flatten_amended "net/vpc" (by decide) (by decide) (by decide) (by decide)
      (by decide) (by decide)).1).1,
   ((c3_flatten_amended "net/vpc" (by decide) (by decide) (by decide) (by decide)
      (by decide) (by decide)).2 "net/vpc").1⟩

/-! ## Flat TTL cache

Python source, `_get_from_cache` / `_set_to_cache` / `clear_cache`
(lines 29-45): the cache is a dict mapping a string key to a
`(value, insertion time)` pair with a fixed TTL of 3600 seconds.  A lookup on
a present key returns the value if `now - timestamp < ttl` and otherwise
deletes the entry and reports a miss; no other entry is ever touched.  The
dict is modelled as an association list with at most one binding per key. -/

/-- The fixed TTL used for every flat-cache entry (`self._cache_ttl = 3600`). -/
def cacheTTL : Nat := 3600

/-- Find the binding of `key` (dict lookup `self._cache[key]`). -/
def entryFind {α : Type} (key : String) : List (String × α × Nat) → Option (α × Nat)
  | [] => none
  | (k, v, ts) :: rest => if k = key then some (v, ts) else entryFind key rest

/-- Python `_get_from_cache`: returns the value on a fresh hit; on an expired
hit it deletes the entry and reports a miss; entries of other keys are
untouched.  The second component is the cache after the lookup. -/
def cacheGet {α : Type} (now : Nat) (key : String) :
    List (String × α × Nat) → Option α × List (String × α × Nat)
  | [] => (none, [])
  | (k, v, ts) :: rest =>
    if k = key then
      if now - ts < cacheTTL then (some v, (k, v, ts) :: rest) else (none, rest)
    else
      let pr := cacheGet now key rest
      (pr.1, (k, v, ts) :: pr.2)

/-- Python `_set_to_cache`: stores `(value, now)` under `key`, replacing any
previous binding of that key. -/
def cacheSet {α : Type} (now : Nat) (key : String) (v : α) :
    List (String × α × Nat) → List (String × α × Nat)
  | [] => [(key, v, now)]
  | (k, w, ts) :: rest =>
    if k = key then (key, v, now) :: rest else (k, w, ts) :: cacheSet now key v rest

theorem cacheGet_of_entryFind_none {α : Type} (now : Nat) (key : String)
    (cache : List (String × α × Nat)) (h : entryFind key cache = none) :
    cacheGet now key cache = (none, cache) := by
  induction cache with
  | nil => rfl
  | cons e rest ih =>
    obtain ⟨k, v, ts⟩ := e
    by_cases hk : k = key
    · rw [entryFind, if_pos hk] at h
      exact absurd h (by simp)
    · rw [entryFind, if_neg hk] at h
      rw [cacheGet, if_neg hk]
      simp [ih h]

theorem cacheGet_hit {α : Type} (now : Nat) (key : String)
    (cache : List (String × α × Nat)) (v : α) (ts : Nat)
    (h : entryFind key cache = some (v, ts)) (hf : now - ts < cacheTTL) :
    cacheGet now key cache = (some v, cache) := by
  induction cache with
  | nil => exact absurd h (by simp [entryFind])
  | cons e rest ih =>
    obtain ⟨k, w, ts2⟩ := e
    by_cases hk : k = key
    · rw [entryFind, if_pos hk] at h
      obtain ⟨hw, hts⟩ : w = v ∧ ts2 = ts := by
        have := Option.some.inj h
        exact ⟨congrArg Prod.fst this, congrArg Prod.snd this⟩
      subst hw; subst hts
      rw [cacheGet, if_pos hk, if_pos hf]
    · rw [entryFind, if_neg hk] at h
      rw [cacheGet, if_neg hk]
      simp [ih h]

theorem cacheGet_fst_some {α : Type} (now : Nat) (key : String)
    (cache : List (String × α × Nat)) (v : α)
    (h : (cacheGet now key cache).1 = some v) :
    ∃ ts, entryFind key cache = some (v, ts) ∧ now - ts < cacheTTL ∧
      (cacheGet now key cache).2 = cache := by
  induction cache with
  | nil => exact absurd h (by simp [cacheGet])
  | cons e rest ih =>
    obtain ⟨k, w, ts2⟩ := e
    by_cases hk : k = key
    · by_cases hf : now - ts2 < cacheTTL
      · rw [cacheGet, if_pos hk, if_pos hf] at h ⊢
        obtain rfl : w = v := Option.some.inj h
        exact ⟨ts2, by rw [entryFind, if_pos hk], hf, rfl⟩
      · rw [cacheGet, if_pos hk, if_neg hf] at h
        exact absurd h (by simp)
    · rw [cacheGet, if_neg hk] at h ⊢
      obtain ⟨ts, h1, h2, h3⟩ := ih h
      refine ⟨ts, by rw [entryFind, if_neg hk]; exact h1, h2, ?_⟩
      simp [h3]

theorem entryFind_cacheSet_self {α : Type} (now : Nat) (key : String) (v : α)
    (cache : List (String × α × Nat)) :
    entryFind key (cacheSet now key v cache) = some (v, now) := by
  induction cache with
  | nil => simp [cacheSet, entryFind]
  | cons e rest ih =>
    obtain ⟨k, w, ts⟩ := e
    by_cases hk : k = key
    · rw [cacheSet, if_pos hk, entryFind, if_pos rfl]
    · rw [cacheSet, if_neg hk, entryFind, if_neg hk]
      exact ih

theorem entryFind_mem {α : Type} (key : String) (cache : List (String × α × Nat))
    (v : α) (ts : Nat) (h : entryFind key cache = some (v, ts)) :
    (key, v, ts) ∈ cache := by
  induction cache with
  | nil => exact absurd h (by simp [entryFind])
  | cons e rest ih =>
    obtain ⟨k, w, ts2⟩ := e
    by_cases hk : k = key
    · rw [entryFind, if_pos hk] at h
      have h2 := Option.some.inj h
      have hw : w = v := congrArg Prod.fst h2
      have hts : ts2 = ts := congrArg Prod.snd h2
      subst hk; subst hw; subst hts
      exact List.mem_cons_self _ _
    · rw [entryFind, if_neg hk] at h
      exact List.mem_cons_of_mem _ (ih h)

theorem entryFind_of_not_mem_keys {α : Type} (key : String)
    (cache : List (String × α × Nat)) (h : key ∉ cache.map fun e => e.1) :
    entryFind key cache = none := by
  induction cache with
  | nil => rfl
  | cons e rest ih =>
    obtain ⟨k, v, ts⟩ := e
    simp only [List.map_cons, List.mem_cons] at h
    push_neg at h
    rw [entryFind, if_neg (fun hk => h.1 hk.symm)]
    exact ih h.2

theorem entryFind_cacheGet_other {α : Type} (now : Nat) (key k2 : String)
    (h : k2 ≠ key) (cache : List (String × α × Nat)) :
    entryFind k2 (cacheGet now key cache).2 = entryFind k2 cache := by
  induction cache with
  | nil => rfl
  | cons e rest ih =>
    obtain ⟨k, v, ts⟩ := e
    by_cases hk : k = key
    · by_cases hf : now - ts < cacheTTL
      · rw [cacheGet, if_pos hk, if_pos hf]
      · rw [cacheGet, if_pos hk, if_neg hf]
        rw [entryFind, if_neg (by rw [hk]; exact fun hkk => h hkk.symm)]
    · rw [cacheGet, if_neg hk]
      by_cases hk2 : k = k2
      · simp only [entryFind, if_pos hk2]
      · simp only [entryFind, if_neg hk2]
        exact ih

theorem entryFind_cacheSet_other {α : Type} (now : Nat) (key k2 : String) (w : α)
    (h : k2 ≠ key) (cache : List (String × α × Nat)) :
    entryFind key (cacheSet now k2 w cache) = entryFind key cache := by
  induction cache with
  | nil => simp [cacheSet, entryFind, h]
  | cons e rest ih =>
    obtain ⟨k, v, ts⟩ := e
    by_cases hk : k = k2
    · rw [cacheSet, if_pos hk, entryFind, if_neg h, entryFind, if_neg (hk ▸ h)]
    · rw [cacheSet, if_neg hk]
      by_cases hkey : k = key
      · rw [entryFind, if_pos hkey, entryFind, if_pos hkey]
      · rw [entryFind, if_neg hkey, entryFind, if_neg hkey]
        exact ih

theorem cacheGet_expired {α : Type} (now : Nat) (key : String)
    (cache : List (String × α × Nat)) (v : α) (ts : Nat)
    (hnodup : (cache.map fun e => e.1).Nodup)
    (hfind : entryFind key cache = some (v, ts))
    (hexp : ¬(now - ts < cacheTTL)) :
    (cacheGet now key cache).1 = none ∧
    entryFind key (cacheGet now key cache).2 = none := by
  induction cache with
  | nil => exact absurd hfind (by simp [entryFind])
  | cons e rest ih =>
    obtain ⟨k, w, ts2⟩ := e
    simp only [List.map_cons, List.nodup_cons] at hnodup
    by_cases hk : k = key
    · rw [entryFind, if_pos hk] at hfind
      have h2 := Option.some.inj hfind
      have hw : w = v := congrArg Prod.fst h2
      have hts : ts2 = ts := congrArg Prod.snd h2
      subst hw; subst hts
      rw [cacheGet, if_pos hk, if_neg hexp]
      refine ⟨rfl, ?_⟩
      apply entryFind_of_not_mem_keys
      rw [← hk]
      exact hnodup.1
    · rw [entryFind, if_neg hk] at hfind
      rw [cacheGet, if_neg hk]
      obtain ⟨ih1, ih2⟩ := ih hnodup.2 hfind
      exact ⟨ih1, by rw [entryFind, if_neg hk]; exact ih2⟩

/-- Claim C7: an entry whose age exceeds the fixed 1-hour TTL (3600 s) is
treated as absent by a lookup: the lookup returns nothing and deletes the
stale entry; and no entry — expired or not — is removed by a lookup on a
different key or by a store under a different key (lazy eviction only, no
proactive sweep).  The key set of the dict model is assumed duplicate-free,
as Python dicts guarantee. -/
theorem c7_ttl_lazy_eviction {α : Type} (cache : List (String × α × Nat))
    (now : Nat) (key : String) (v : α) (ts : Nat)
    (hnodup : (cache.map fun e => e.1).Nodup)
    (hfind : entryFind key cache = some (v, ts))
    (hexp : now - ts > cacheTTL) :
    (cacheGet now key cache).1 = none ∧
    entryFind key (cacheGet now key cache).2 = none ∧
    (∀ k2, k2 ≠ key → entryFind k2 (cacheGet now key cache).2 = entryFind k2 cache) ∧
    (∀ k2 w now2, k2 ≠ key → entryFind key (cacheSet now2 k2 w cache) = entryFind key cache) ∧
    (∀ k2 now2, k2 ≠ key → entryFind key (cacheGet now2 k2 cache).2 = entryFind key cache) := by
  have hstale : ¬(now - ts < cacheTTL) := by omega
  obtain ⟨hg1, hg2⟩ := cacheGet_expired now key cache v ts hnodup hfind hstale
  refine ⟨hg1, hg2, ?_, ?_, ?_⟩
  · intro k2 hk2
    exact entryFind_cacheGet_other now key k2 hk2 cache
  · intro k2 w now2 hk2
    exact entryFind_cacheSet_other now2 key k2 w hk2 cache
  · intro k2 now2 hk2
    exact entryFind_cacheGet_other now2 k2 key (fun hkk => hk2 hkk.symm) cache

/-- Witness for C7, on a two-entry cache with the entry at `"a"` expired. -/
theorem c7_ttl_lazy_eviction_witness :
    (cacheGet 4000 "a" [("a", (1 : Nat), 0), ("b", 2, 10)]).1 = none ∧
    entryFind "a" (cacheGet 4000 "a" [("a", (1 : Nat), 0), ("b", 2, 10)]).2 = none ∧
    entryFind "a" (cacheSet 4000 "b" (5 : Nat) [("a", (1 : Nat), 0), ("b", 2, 10)]) =
      entryFind "a" [("a", (1 : Nat), 0), ("b", 2, 10)] :=
  have h := c7_ttl_lazy_eviction [("a", (1 : Nat), 0), ("b", 2, 10)] 4000 "a" 1 0
    (by decide) (by decide) (by decide)
  ⟨h.1, h.2.1, h.2.2.2.1 "b" (5 : Nat) 4000 (by decide)⟩

/-! ## Archive Repackager (get_module_source_zip, lines 659-706)

After the snapshot zip is downloaded, the source computes
`target_path = "modules/" + resolved_rel_path` (just `"modules"` when the
relative path is empty, and `""` outside shared-repository mode), strips
slashes from both ends, takes the synthetic root directory from the first
entry name, builds `search_prefix = root_dir + "/" + target_path` (just
`root_dir` when the target is empty) with a trailing `/` appended when
missing, and then copies every entry whose name starts with `search_prefix`
— skipping the entry equal to the prefix itself — under the name with the
prefix removed.  Only entry names are modelled; entry payloads are copied
verbatim by the source. -/

/-- The per-entry filter/rename of the output zip loop. -/
def zipEntryOut (searchPrefix : String) (n : String) : Option String :=
  if pyStartsWith n searchPrefix then
    if n = searchPrefix then none
    else
      let rel := pyDropChars n (pyLen searchPrefix)
      if rel = "" then none else some rel
  else none

/-- The output entry-name list of the repackaging loop. -/
def filterZipEntries (searchPrefix : String) (names : List String) : List String :=
  names.filterMap (zipEntryOut searchPrefix)

/-- `search_prefix` computation (lines 678-682). -/
def searchPrefixOf (rootDir targetPath : String) : String :=
  let s := if targetPath ≠ "" then rootDir ++ "/" ++ targetPath else rootDir
  if pyEndsWith s "/" then s else s ++ "/"

/-- The synthetic root directory: first `/`-segment of the first entry name. -/
def rootDirOf (names : List String) : String :=
  (pySplit (names.headD "") '/').headD ""

/-- `target_path` in shared-repository mode (lines 659-668). -/
def monoTargetPath (rel : String) : String :=
  pyStripChar '/' (if rel ≠ "" then "modules/" ++ rel else "modules")

/-- The repackager's output entry names, from the resolved relative path and
the downloaded entry names; `none` models the empty-zip error return. -/
def buildSourceEntries (isMono : Bool) (rel : String) (names : List String) :
    Option (List String) :=
  if names.isEmpty then none
  else
    some (filterZipEntries
      (searchPrefixOf (rootDirOf names) (if isMono then monoTargetPath rel else ""))
      names)

theorem mem_filterZipEntries_iff (sp : String) (names : List String) (o : String) :
    o ∈ filterZipEntries sp names ↔ (sp ++ o) ∈ names ∧ o ≠ "" := by
  unfold filterZipEntries
  rw [List.mem_filterMap]
  constructor
  · rintro ⟨n, hn, hz⟩
    unfold zipEntryOut at hz
    by_cases h1 : pyStartsWith n sp = true
    · rw [if_pos h1] at hz
      by_cases h2 : n = sp
      · rw [if_pos h2] at hz
        exact absurd hz (by simp)
      · rw [if_neg h2] at hz
        obtain ⟨t, ht⟩ := (pyStartsWith_iff_exists n sp).mp h1
        have hdrop : pyDropChars n (pyLen sp) = String.mk t :=
          pyDropChars_of_toList_append n sp t ht
        rw [hdrop] at hz
        by_cases h3 : String.mk t = ""
        · rw [if_pos h3] at hz
          exact absurd hz (by simp)
        · rw [if_neg h3] at hz
          have ho : o = String.mk t := (Option.some.inj hz).symm
          have hno : n = sp ++ o := by
            apply toListInj
            rw [toListAppend, ht, ho]
            rfl
          rw [← hno]
          exact ⟨hn, ho ▸ h3⟩
    · rw [if_neg h1] at hz
      exact absurd hz (by simp)
  · rintro ⟨hmem, hne⟩
    refine ⟨sp ++ o, hmem, ?_⟩
    unfold zipEntryOut
    have h1 : pyStartsWith (sp ++ o) sp = true := by
      apply pyStartsWith_of_toList_append _ _ o.toList
      exact toListAppend sp o
    rw [if_pos h1]
    have h2 : ¬(sp ++ o = sp) := by
      intro hc
      apply hne
      have := congrArg String.toList hc
      rw [toListAppend] at this
      have ho : o.toList = [] := (appendRightEqSelf _ _).mp this
      apply toListInj
      rw [ho]; rfl
    rw [if_neg h2]
    have hdrop : pyDropChars (sp ++ o) (pyLen sp) = o := by
      have := pyDropChars_of_toList_append (sp ++ o) sp o.toList (toListAppend sp o)
      rw [mkToList] at this
      exact this
    rw [hdrop, if_neg hne]

/-- Claim C2 (counterexample): the first half of the claim (exact prefix
filtering with stripping) holds, but the guarantee that no output entry path
contains the snapshot's synthetic root or the top-level `modules` prefix is
false: a module subtree may itself contain a directory named `modules`.  Here
the entry `abc123/modules/net/vpc/modules/main.tf` is repackaged as
`modules/main.tf`, whose first path segment is the top-level prefix
`modules`. -/
theorem c2_repackage_counterexample :
    buildSourceEntries true "net/vpc"
        ["abc123/modules/net/vpc/", "abc123/modules/net/vpc/modules/main.tf"]
      = some ["modules/main.tf"] ∧
    "modules" ∈ pySplit "modules/main.tf" '/' := by
  refine ⟨by decide, by decide⟩

/-- Claim C2 (amended): `buildSourceArchive` outputs exactly the source
entries whose path starts with the slash-terminated `search_prefix` (the
synthetic root joined with the top-level prefix and the relative path),
with that exact prefix stripped, skipping the entry equal to the prefix
itself; consequently every output entry path is an input entry path with the
leading synthetic-root / `modules`-prefix portion removed (although segments
inside the module subtree may coincidentally be named like them). -/
theorem c2_repackage_prefix_filter (rel : String) (names : List String)
    (hne : names.isEmpty = false) (o : String) :
    o ∈ (buildSourceEntries true rel names).getD [] ↔
      (searchPrefixOf (rootDirOf names) (monoTargetPath rel)) ++ o ∈ names ∧ o ≠ "" := by
  simp only [buildSourceEntries, hne, Bool.false_eq_true, if_false, if_true,
    Option.getD_some]
  exact mem_filterZipEntries_iff _ _ _

/-- Witness for C2 (amended): the spec's own example — input entry
`abc123/modules/net/vpc/main.tf` with resolved relative path `net/vpc`
yields output entry `main.tf`. -/
theorem c2_repackage_prefix_filter_witness :
    "main.tf" ∈ (buildSourceEntries true "net/vpc"
      ["abc123/modules/net/vpc/main.tf"]).getD [] :=
  (c2_repackage_prefix_filter "net/vpc" ["abc123/modules/net/vpc/main.tf"]
    (by decide) "main.tf").mpr ⟨by decide, by decide⟩

/-! ## Providers from an explicit shared-repository name

Python source, `get_providers` (lines 213-221): when `settings.monorepo_name`
is configured, the provider name defaults to `"aws"` and is replaced by
`parts[1]` when the repository name splits on `"-"` into at least three
parts whose first part is `"terraform"` and whose last part is
`"modules"`; exactly one provider entry backed by that repository is
returned. -/

structure ProviderEntry where
  name : String
  repos : List String
deriving DecidableEq

/-- The `settings.monorepo_name` branch of `get_providers`. -/
def getProvidersMono (monoName : String) : List ProviderEntry :=
  let parts := pySplit monoName '-'
  let p :=
    if parts.length ≥ 3 ∧ parts.headD "" = "terraform" ∧ parts.getLastD "" = "modules"
    then parts.getD 1 "" else "aws"
  [⟨p, [monoName]⟩]

theorem splitChars_no_sep (sep : Char) (l : List Char) (h : sep ∉ l) :
    splitChars sep l = [l] := by
  induction l with
  | nil => rfl
  | cons c cs ih =>
    simp only [List.mem_cons] at h
    push_neg at h
    rw [splitChars, if_neg (fun hc => h.1 hc.symm), ih h.2]

theorem splitChars_append_sep (sep : Char) (l₁ l₂ : List Char) (h : sep ∉ l₁) :
    splitChars sep (l₁ ++ sep :: l₂) = l₁ :: splitChars sep l₂ := by
  induction l₁ with
  | nil =>
    simp only [List.nil_append]
    rw [splitChars, if_pos rfl]
  | cons c cs ih =>
    simp only [List.mem_cons] at h
    push_neg at h
    rw [List.cons_append, splitChars, if_neg (fun hc => h.1 hc.symm), ih h.2]

theorem pySplit_terraform_modules (p : String) (hp : '-' ∉ p.toList) :
    pySplit ("terraform-" ++ p ++ "-modules") '-' = ["terraform", p, "modules"] := by
  unfold pySplit
  have h1 : ("terraform-" ++ p ++ "-modules").toList
      = "terraform".toList ++ '-' :: (p.toList ++ '-' :: "modules".toList) := by
    rw [toListAppend, toListAppend]
    have e1 : ("terraform-".toList : List Char) = "terraform".toList ++ ['-'] := by decide
    have e2 : ("-modules".toList : List Char) = '-' :: "modules".toList := by decide
    rw [e1, e2, List.append_assoc]
    rfl
  rw [h1, splitChars_append_sep '-' _ _ (by decide),
    splitChars_append_sep '-' _ _ hp, splitChars_no_sep '-' _ (by decide)]
  simp only [List.map_cons, List.map_nil, mkToList]

/-- Claim C9: with an explicit single shared-repository name configured,
`get_providers` returns exactly one provider backed by that repository; the
provider name is the dash-separated segment following `terraform` when the
name has at least three dash-separated parts with first part `terraform` and
last part `modules` (so exactly `p` for a dash-free `p` in
`terraform-{p}-modules`), and the literal `aws` otherwise. -/
theorem c9_providers_from_monorepo_name :
    (∀ p : String, '-' ∉ p.toList →
      getProvidersMono ("terraform-" ++ p ++ "-modules")
        = [⟨p, ["terraform-" ++ p ++ "-modules"]⟩]) ∧
    (∀ r : String,
      ¬((pySplit r '-').length ≥ 3 ∧ (pySplit r '-').headD "" = "terraform" ∧
          (pySplit r '-').getLastD "" = "modules") →
      getProvidersMono r = [⟨"aws", [r]⟩]) ∧
    (∀ r : String, ∃ e : ProviderEntry, getProvidersMono r = [e] ∧ e.repos = [r]) := by
  refine ⟨?_, ?_, ?_⟩
  · intro p hp
    unfold getProvidersMono
    rw [pySplit_terraform_modules p hp]
    simp
  · intro r hc
    simp only [getProvidersMono]
    rw [if_neg hc]
  · intro r
    exact ⟨_, rfl, rfl⟩

/-- Witness for C9, at the repository name `terraform-aws-modules`. -/
theorem c9_providers_from_monorepo_name_witness :
    getProvidersMono ("terraform-" ++ "aws" ++ "-modules")
      = [⟨"aws", ["terraform-" ++ "aws" ++ "-modules"]⟩] :=
  c9_providers_from_monorepo_name.1 "aws" (by decide)

/-! ## Data model: tree items, module records, structured cache, settings

The structured cache (provider -> groups -> parents -> modules, lines 25-27
and 475-484) is modelled with association lists, whose order mirrors the
insertion order of Python dicts.  Configuration strings that Python treats
as falsy when unset or empty are modelled as `Option String`. -/

structure TreeItem where
  type : String
  path : String
deriving DecidableEq

/-- Python `"/".join(path.split("/")[:-1])` (the containing directory). -/
def dirnameOf (path : String) : String :=
  joinSlash ((pySplit path '/').dropLast)

/-- Python `dirname[len("modules"):].lstrip("/")` — the relative path of a
directory under the top-level prefix (lines 128-131, 150-151, 350). -/
def stripModulesSlash (dirname : String) : String :=
  pyLstripChar '/' (pyDropChars dirname 7)

structure ModData where
  namespace_owner : String
  name : String
  short_name : String
  parsed_name : String
  group : String
  group_slug : String
  parent_dir : String
  parent_slug : String
  subfolder : String
  provider : String
  parsed_provider : String
  repo_name : String
  path : String
  description : String
  versions : List String
  stars : Nat
  url : String
  readme_content : Option String
deriving DecidableEq

structure ParentNode where
  name : String
  modules : List (String × ModData)
deriving DecidableEq

structure GroupNode where
  name : String
  parents : List (String × ParentNode)
deriving DecidableEq

structure ProviderNode where
  groups : List (String × GroupNode)
deriving DecidableEq

/-- Locations are pairs `(repo_name, relative path)`; either component is
`None` in Python on failure, so both are modelled as options.  Every value
stored under a `location:` key is a 2-tuple and hence truthy in Python, so a
flat-cache hit always returns, whether the cached resolution was positive or
negative. -/
abbrev LocVal := Option String × Option String

structure CacheState where
  flat : List (String × LocVal × Nat)
  structured : List (String × ProviderNode)
deriving DecidableEq

structure Settings where
  monorepo_owner : Option String
  target_org : Option String
  monorepo_name : Option String
deriving DecidableEq

/-- Python `settings.monorepo_owner or settings.target_org`. -/
def getOwner (st : Settings) : Option String :=
  match st.monorepo_owner with
  | some o => some o
  | none => st.target_org

/-- Python `is_monorepo`: an owner is configured. -/
def isMonorepo (st : Settings) : Bool := (getOwner st).isSome

/-- The flat-cache key `location:{namespace}:{name}:{provider}`. -/
def locationKey (ns name provider : String) : String :=
  "location:" ++ ns ++ ":" ++ name ++ ":" ++ provider

def assocFind {β : Type} (key : String) : List (String × β) → Option β
  | [] => none
  | (k, v) :: rest => if k = key then some v else assocFind key rest

/-- Iterate the parents dict in order; return the first module bound to
`name` (lines 67-70). -/
def lookupInParents (name : String) : List (String × ParentNode) → Option ModData
  | [] => none
  | (_, pa) :: rest =>
    match assocFind name pa.modules with
    | some m => some m
    | none => lookupInParents name rest

/-- Iterate the groups dict in order (lines 66-70). -/
def lookupInGroups (name : String) : List (String × GroupNode) → Option ModData
  | [] => none
  | (_, g) :: rest =>
    match lookupInParents name g.parents with
    | some m => some m
    | none => lookupInGroups name rest

/-- The structured-cache probe of `_resolve_module_location` (lines 61-70):
find the provider node, then scan groups and parents for the module name.
The namespace of the coordinate plays no role here. -/
def structuredLookup (sc : List (String × ProviderNode)) (provider name : String) :
    Option ModData :=
  match assocFind provider sc with
  | none => none
  | some p => lookupInGroups name p.groups

/-! ## Remote environment

The upstream HTTP capability is modelled as a static environment: `none`
models a non-2xx response.  `repoBranch` combines the repository existence
check with the default-branch field of its JSON body. -/

inductive RemoteCall where
  | listOrg (owner : String)
  | listUser (owner : String)
  | repoGet (owner repo : String)
  | treeGet (owner repo branch : String)
deriving DecidableEq

structure Env where
  orgRepos : Option (List String)
  userRepos : Option (List String)
  repoBranch : String → String → Option String
  repoTree : String → String → String → Option (List TreeItem)

/-- The org-repo listing with user-repo fallback (lines 89-95). -/
def listOwnerRepos (env : Env) (owner : String) :
    Option (List String) × List RemoteCall :=
  match env.orgRepos with
  | some l => (some l, [RemoteCall.listOrg owner])
  | none => (env.userRepos, [RemoteCall.listOrg owner, RemoteCall.listUser owner])

/-- The candidate-repository regex `.*terraform-{provider}-modules$` with
IGNORECASE (line 96), for providers without regex metacharacters: a
case-insensitive suffix match. -/
def matchesProviderRepo (provider r : String) : Bool :=
  pyEndsWith (pyLower r) ("terraform-" ++ pyLower provider ++ "-modules")

/-! ## Location Resolver (_resolve_module_location, lines 55-164) -/

/-- File-based match test for one tree item (lines 120-142): a blob ending in
`.tf`, with a non-empty containing directory that starts with `modules`,
whose relative path is non-empty and flattens to the requested name. -/
def tfMatchRel (name : String) (item : TreeItem) : Option String :=
  if item.type = "blob" ∧ pyEndsWith item.path ".tf" = true then
    let dn := dirnameOf item.path
    if dn ≠ "" ∧ pyStartsWith dn "modules" = true then
      let rel := stripModulesSlash dn
      if rel ≠ "" ∧ flattenRel rel = name then some rel else none
    else none
  else none

/-- The file-based scan over the tree, first match wins. -/
def fileScan (name : String) : List TreeItem → Option String
  | [] => none
  | it :: rest =>
    match tfMatchRel name it with
    | some rel => some rel
    | none => fileScan name rest

/-- Directory-fallback match test for one tree item (lines 144-161). -/
def dirMatchRel (name : String) (item : TreeItem) : Option String :=
  if item.type = "tree" then
    if pyStartsWith item.path "modules" = true then
      let rel := stripModulesSlash item.path
      if rel ≠ "" ∧ flattenRel rel = name then some rel else none
    else none
  else none

/-- The directory-fallback scan over the tree, first match wins. -/
def dirScan (name : String) : List TreeItem → Option String
  | [] => none
  | it :: rest =>
    match dirMatchRel name it with
    | some rel => some rel
    | none => dirScan name rest

/-- The candidate-repository loop (lines 104-161): fetch the repository (for
its default branch) and its recursive tree, skipping the candidate on any
non-2xx; run the file-based scan and then the directory fallback; the first
match returns that repository and relative path. -/
def scanRepos (env : Env) (owner name : String) :
    List String → Option (String × String) × List RemoteCall
  | [] => (none, [])
  | r :: rest =>
    match env.repoBranch owner r with
    | none =>
      let pr := scanRepos env owner name rest
      (pr.1, RemoteCall.repoGet owner r :: pr.2)
    | some br =>
      match env.repoTree owner r br with
      | none =>
        let pr := scanRepos env owner name rest
        (pr.1, RemoteCall.repoGet owner r :: RemoteCall.treeGet owner r br :: pr.2)
      | some tree =>
        match fileScan name tree with
        | some rel =>
          (some (r, rel), [RemoteCall.repoGet owner r, RemoteCall.treeGet owner r br])
        | none =>
          match dirScan name tree with
          | some rel =>
            (some (r, rel), [RemoteCall.repoGet owner r, RemoteCall.treeGet owner r br])
          | none =>
            let pr := scanRepos env owner name rest
            (pr.1, RemoteCall.repoGet owner r :: RemoteCall.treeGet owner r br :: pr.2)

/-- `_get_repo_name` in standard multi-repo mode (lines 173-188): probe the
repository named exactly `name`, then `terraform-{provider}-{name}`. -/
def getRepoNameMulti (env : Env) (ns name provider : String) :
    Option String × List RemoteCall :=
  if (env.repoBranch ns name).isSome then
    (some name, [RemoteCall.repoGet ns name])
  else
    let r2 := "terraform-" ++ provider ++ "-" ++ name
    if (env.repoBranch ns r2).isSome then
      (some r2, [RemoteCall.repoGet ns name, RemoteCall.repoGet ns r2])
    else (none, [RemoteCall.repoGet ns name, RemoteCall.repoGet ns r2])

/-- The cold path of `_resolve_module_location` after both cache probes miss:
the value returned and the remote calls made.  Every exit of the Python cold
path stores the returned pair in the flat cache, so the caching is factored
out into `resolveModuleLocation` below. -/
def resolveFresh (st : Settings) (env : Env) (ns name provider : String) :
    LocVal × List RemoteCall :=
  match getOwner st with
  | none =>
    let pr := getRepoNameMulti env ns name provider
    ((pr.1, some ""), pr.2)
  | some owner =>
    let cpr : List String × List RemoteCall :=
      match st.monorepo_name with
      | some m => ([m], [])
      | none =>
        let lpr := listOwnerRepos env owner
        ((lpr.1.getD []).filter (fun r => matchesProviderRepo provider r), lpr.2)
    let cands := if cpr.1 = [] then ["terraform-" ++ provider ++ "-modules"] else cpr.1
    let spr := scanRepos env owner name cands
    (match spr.1 with
     | some rp => (some rp.1, some rp.2)
     | none => (none, none), cpr.2 ++ spr.2)

/-- `_resolve_module_location` (lines 55-164): structured-cache probe, then
flat-cache probe under the location key (any stored 2-tuple is truthy and
returned as-is, including cached negatives), then the cold path whose result
— positive or negative — is stored in the flat cache. -/
def resolveModuleLocation (st : Settings) (env : Env) (c : CacheState) (now : Nat)
    (ns name provider : String) : LocVal × CacheState × List RemoteCall :=
  match structuredLookup c.structured provider name with
  | some m => ((some m.repo_name, some m.path), c, [])
  | none =>
    let key := locationKey ns name provider
    let gpr := cacheGet now key c.flat
    match gpr.1 with
    | some v => (v, ⟨gpr.2, c.structured⟩, [])
    | none =>
      let fpr := resolveFresh st env ns name provider
      (fpr.1, ⟨cacheSet now key fpr.1 gpr.2, c.structured⟩, fpr.2)

/-! ## Tree Scanner / Structured Cache builder (get_modules_for_provider,
lines 334-486, with enrichment disabled: the README fetch only refines the
description text and stored README, never the derived slugs or paths) -/

/-- Candidate module directory contributed by one tree item (lines 338-346):
a blob under `modules/` ending in `.tf` contributes its containing
directory. -/
def tfDirOf (item : TreeItem) : Option String :=
  if pyStartsWith item.path "modules/" = true ∧ item.type = "blob" ∧
      pyEndsWith item.path ".tf" = true then
    let dn := dirnameOf item.path
    if dn ≠ "" then some dn else none
  else none

/-- The set `module_paths` (a Python set: membership is what matters; the
model keeps first-occurrence order). -/
def modulePathsOf (tree : List TreeItem) : List String :=
  (tree.filterMap tfDirOf).dedup

/-- The ModuleRecord built for one candidate directory (lines 357-471,
enrichment disabled). -/
def mkModData (owner repoName branch provider : String) (versions : List String)
    (mpath : String) : ModData :=
  let rel := stripModulesSlash mpath
  let parts := pySplit rel '/'
  let group_slug := parts.headD ""
  let display := flattenRel rel
  { namespace_owner := owner
    name := display
    short_name := pyReplaceChar '-' '_' (parts.getLastD "")
    parsed_name := display
    group := pyTitle (pyReplaceChar '_' ' ' group_slug)
    group_slug := group_slug
    parent_dir :=
      if parts.length > 2 then pyTitle (pyReplaceChar '_' ' ' (parts.getD 1 ""))
      else "General"
    parent_slug := if parts.length > 2 then parts.getD 1 "" else "general"
    subfolder := if parts.length ≥ 2 then parts.getD (parts.length - 2) "" else "root"
    provider := provider
    parsed_provider := provider
    repo_name := repoName
    path := rel
    description := "Module " ++ display ++ " (" ++ provider ++ ")"
    versions := versions
    stars := 0
    url := "https://github.com/" ++ owner ++ "/" ++ repoName ++ "/tree/" ++ branch
      ++ "/" ++ mpath
    readme_content := none }

/-- Per-candidate filtering of the scan loop (lines 348-355): skip an empty
relative name and skip any candidate with an `examples`, `fixtures` or
`tests` path segment. -/
def scanEntry (owner repoName branch provider : String) (versions : List String)
    (mpath : String) : Option ModData :=
  let rel := stripModulesSlash mpath
  if rel = "" then none
  else if "examples" ∈ pySplit mpath '/' ∨ "fixtures" ∈ pySplit mpath '/' ∨
      "tests" ∈ pySplit mpath '/' then none
  else some (mkModData owner repoName branch provider versions mpath)

/-- The ModuleRecords produced by scanning one repository tree; exactly these
records are inserted into the structured cache (lines 475-484). -/
def scanRepoRecords (owner repoName branch provider : String)
    (versions : List String) (tree : List TreeItem) : List ModData :=
  (modulePathsOf tree).filterMap (scanEntry owner repoName branch provider versions)

/-- Environment for the C6 scenario: the account listing succeeds but
contains no repository matching `*terraform-aws-modules`, so the resolver
falls back to the conventional name `terraform-aws-modules`, which exists
and contains `modules/net/vpc/main.tf` on its default branch. -/
def c6Env : Env :=
  { orgRepos := some ["infra-tools"]
    userRepos := none
    repoBranch := fun o r =>
      if o = "acme" ∧ r = "terraform-aws-modules" then some "main" else none
    repoTree := fun o r b =>
      if o = "acme" ∧ r = "terraform-aws-modules" ∧ b = "main" then
        some [⟨"blob", "modules/net/vpc/main.tf"⟩]
      else none }

/-- Settings for the C6 scenario: shared-repository mode via a configured
owner, no explicit single repository name. -/
def c6Settings : Settings := ⟨some "acme", none, none⟩

/-- Claim C6: for every module directory discovered by the scanner, the group
slug is the first path segment after the `modules` prefix and the parent slug
is the second segment exactly when the relative path has more than two
segments, otherwise the fixed `general` sentinel; and, concretely, a module
at `modules/net/vpc` in shared-repository mode with no matching candidate
repositories resolves to repository `terraform-aws-modules` with path
`net/vpc`, group slug `net`, and parent slug `general`. -/
theorem c6_scanner_slugs :
    (∀ owner repoName branch provider : String, ∀ versions : List String,
      ∀ tree : List TreeItem, ∀ m : ModData,
        m ∈ scanRepoRecords owner repoName branch provider versions tree →
        m.group_slug = (pySplit m.path '/').headD "" ∧
        m.parent_slug =
          (if (pySplit m.path '/').length > 2 then (pySplit m.path '/').getD 1 ""
           else "general")) ∧
    ((resolveModuleLocation c6Settings c6Env ⟨[], []⟩ 0 "acme" "net_vpc" "aws").1
        = (some "terraform-aws-modules", some "net/vpc") ∧
     (mkModData "acme" "terraform-aws-modules" "main" "aws" [] "modules/net/vpc").group_slug
        = "net" ∧
     (mkModData "acme" "terraform-aws-modules" "main" "aws" [] "modules/net/vpc").parent_slug
        = "general") := by
  constructor
  · intro owner repoName branch provider versions tree m hm
    unfold scanRepoRecords at hm
    rw [List.mem_filterMap] at hm
    obtain ⟨mp, hmp, hse⟩ := hm
    simp only [scanEntry] at hse
    split_ifs at hse
    obtain rfl : mkModData owner repoName branch provider versions mp = m :=
      Option.some.inj hse
    exact ⟨rfl, rfl⟩
  · refine ⟨by decide, by decide, by decide⟩

/-- Witness for C6, for the module directory `modules/net/vpc`. -/
theorem c6_scanner_slugs_witness :
    (mkModData "acme" "repo" "main" "aws" [] "modules/net/vpc").group_slug
        = (pySplit (mkModData "acme" "repo" "main" "aws" [] "modules/net/vpc").path
            '/').headD "" ∧
    (mkModData "acme" "repo" "main" "aws" [] "modules/net/vpc").parent_slug
        = (if (pySplit (mkModData "acme" "repo" "main" "aws" [] "modules/net/vpc").path
              '/').length > 2 then
            (pySplit (mkModData "acme" "repo" "main" "aws" [] "modules/net/vpc").path
              '/').getD 1 ""
           else "general") :=
  c6_scanner_slugs.1 "acme" "repo" "main" "aws" []
    [⟨"blob", "modules/net/vpc/main.tf"⟩]
    (mkModData "acme" "repo" "main" "aws" [] "modules/net/vpc") (by decide)

/-- Claim C10: the structured-cache probe of `_resolve_module_location`
ignores the namespace component of the coordinate: whenever the structured
cache binds the requested flattened name under the provider, the resolver
returns that module's `(repository, path)` — with no state change and no
remote call — identically for every namespace argument and at every time. -/
theorem c10_resolve_ignores_namespace (st : Settings) (env : Env)
    (c : CacheState) (name provider : String) (m : ModData)
    (hmono : isMonorepo st = true)
    (hsl : structuredLookup c.structured provider name = some m) :
    ∀ ns1 ns2 : String, ∀ now1 now2 : Nat,
      resolveModuleLocation st env c now1 ns1 name provider
        = resolveModuleLocation st env c now2 ns2 name provider ∧
      resolveModuleLocation st env c now1 ns1 name provider
        = ((some m.repo_name, some m.path), c, []) := by
  have h1 : ∀ ns : String, ∀ now : Nat,
      resolveModuleLocation st env c now ns name provider
        = ((some m.repo_name, some m.path), c, []) := by
    intro ns now
    unfold resolveModuleLocation
    rw [hsl]
  intro ns1 ns2 now1 now2
  exact ⟨(h1 ns1 now1).trans (h1 ns2 now2).symm, h1 ns1 now1⟩

/-- A structured cache holding one module, for the C10 witness. -/
def c10Cache : CacheState :=
  ⟨[], [("aws", ⟨[("net", ⟨"Net", [("general", ⟨"General",
    [("net_vpc",
      mkModData "acme" "terraform-aws-modules" "main" "aws" [] "modules/net/vpc")]⟩)]⟩)]⟩)]⟩

/-- An environment that fails every remote call, for the C10 witness: the
structured-cache hit never consults it. -/
def c10Env : Env := ⟨none, none, fun _ _ => none, fun _ _ _ => none⟩

/-- Witness for C10: two namespaces, two times, identical results. -/
theorem c10_resolve_ignores_namespace_witness :
    resolveModuleLocation ⟨some "acme", none, none⟩ c10Env c10Cache 0 "alice"
        "net_vpc" "aws"
      = resolveModuleLocation ⟨some "acme", none, none⟩ c10Env c10Cache 99 "bob"
        "net_vpc" "aws" ∧
    resolveModuleLocation ⟨some "acme", none, none⟩ c10Env c10Cache 0 "alice"
        "net_vpc" "aws"
      = ((some "terraform-aws-modules", some "net/vpc"), c10Cache, []) :=
  c10_resolve_ignores_namespace ⟨some "acme", none, none⟩ c10Env c10Cache
    "net_vpc" "aws"
    (mkModData "acme" "terraform-aws-modules" "main" "aws" [] "modules/net/vpc")
    (by decide) (by decide) "alice" "bob" 0 99

/-- Case analysis of one `_resolve_module_location` call: the structured
cache is never written; on a structured hit the state is unchanged, and on
every other path the returned value — found or not — ends up bound to the
location key in the flat cache. -/
theorem resolve_cases (st : Settings) (env : Env) (c : CacheState) (now : Nat)
    (ns name provider : String) (v : LocVal) (c2 : CacheState)
    (calls : List RemoteCall)
    (h1 : resolveModuleLocation st env c now ns name provider = (v, c2, calls)) :
    c2.structured = c.structured ∧
    ((∃ m, structuredLookup c.structured provider name = some m ∧
        v = (some m.repo_name, some m.path) ∧ c2 = c) ∨
     (structuredLookup c.structured provider name = none ∧
      ∃ ts, entryFind (locationKey ns name provider) c2.flat = some (v, ts))) := by
  unfold resolveModuleLocation at h1
  cases hsl : structuredLookup c.structured provider name with
  | some m =>
    rw [hsl] at h1
    simp only [] at h1
    have hv := congrArg Prod.fst h1
    have h2 := congrArg Prod.snd h1
    have hc2 := congrArg Prod.fst h2
    simp only [] at hv hc2
    exact ⟨hc2 ▸ rfl, Or.inl ⟨m, rfl, hv.symm, hc2.symm⟩⟩
  | none =>
    rw [hsl] at h1
    simp only [] at h1
    cases hget : (cacheGet now (locationKey ns name provider) c.flat).1 with
    | some w =>
      rw [hget] at h1
      simp only [] at h1
      have hv := congrArg Prod.fst h1
      have h2 := congrArg Prod.snd h1
      have hc2 := congrArg Prod.fst h2
      simp only [] at hv hc2
      obtain ⟨ts, hfind, hfr, hsnd⟩ := cacheGet_fst_some now _ c.flat w hget
      refine ⟨hc2 ▸ rfl, Or.inr ⟨rfl, ts, ?_⟩⟩
      rw [← hc2]
      simp only [hsnd]
      rw [hv] at hfind
      exact hfind
    | none =>
      rw [hget] at h1
      simp only [] at h1
      have hv := congrArg Prod.fst h1
      have h2 := congrArg Prod.snd h1
      have hc2 := congrArg Prod.fst h2
      simp only [] at hv hc2
      refine ⟨hc2 ▸ rfl, Or.inr ⟨rfl, now, ?_⟩⟩
      rw [← hc2, ← hv]
      exact entryFind_cacheSet_self now _ _ _

/-- A second `_resolve_module_location` call for the same coordinate, against
the state left by a first call and with no entry of that state expired,
returns the first call's value, leaves the state unchanged, and performs no
remote call at all. -/
theorem resolve_second_call (st : Settings) (env : Env) (c : CacheState)
    (now now2 : Nat) (ns name provider : String) (v : LocVal) (c2 : CacheState)
    (calls : List RemoteCall)
    (h1 : resolveModuleLocation st env c now ns name provider = (v, c2, calls))
    (hfresh : ∀ k : String, ∀ w : LocVal, ∀ ts : Nat,
      (k, w, ts) ∈ c2.flat → now2 - ts < cacheTTL) :
    resolveModuleLocation st env c2 now2 ns name provider = (v, c2, []) := by
  obtain ⟨hstr, hcase⟩ := resolve_cases st env c now ns name provider v c2 calls h1
  rcases hcase with ⟨m, hsl, hv, hc2⟩ | ⟨hsl, ts, hfind⟩
  · subst hc2
    unfold resolveModuleLocation
    rw [hsl, hv]
  · unfold resolveModuleLocation
    have hsl2 : structuredLookup c2.structured provider name = none := by
      rw [hstr]; exact hsl
    rw [hsl2]
    have hmem := entryFind_mem _ _ _ _ hfind
    have hfr := hfresh _ _ _ hmem
    have hhit := cacheGet_hit now2 (locationKey ns name provider) c2.flat v ts hfind hfr
    simp only [hhit]

/-- Claim C4: if a call to `_resolve_module_location` found a location (its
repository component is not `None`), then a second call for the same
coordinate against the resulting state — with no intervening cache clear and
no entry of that state expired at the second call's time — returns the
identical location, leaves the caches unchanged, and performs no remote call
(in particular no tree fetch). -/
theorem c4_resolve_cache_hit (st : Settings) (env : Env) (c : CacheState)
    (now now2 : Nat) (ns name provider : String) (r : String) (p : Option String)
    (c2 : CacheState) (calls : List RemoteCall)
    (h1 : resolveModuleLocation st env c now ns name provider
      = ((some r, p), c2, calls))
    (hfresh : ∀ k : String, ∀ w : LocVal, ∀ ts : Nat,
      (k, w, ts) ∈ c2.flat → now2 - ts < cacheTTL) :
    resolveModuleLocation st env c2 now2 ns name provider = ((some r, p), c2, []) :=
  resolve_second_call st env c now now2 ns name provider (some r, p) c2 calls h1 hfresh

/-- An environment that fails every remote call. -/
def noRemoteEnv : Env := ⟨none, none, fun _ _ => none, fun _ _ _ => none⟩

/-- A cache state holding one fresh positive resolution, for the C4 witness. -/
def c4State : CacheState :=
  ⟨[("location:acme:vpc:aws", (some "shared", some "vpc"), 0)], []⟩

/-- Witness for C4: the first call hits the flat cache; the second call at a
later time returns the identical location with no remote call. -/
theorem c4_resolve_cache_hit_witness :
    resolveModuleLocation ⟨some "acme", none, some "shared"⟩ noRemoteEnv c4State 100
        "acme" "vpc" "aws" = ((some "shared", some "vpc"), c4State, []) :=
  c4_resolve_cache_hit ⟨some "acme", none, some "shared"⟩ noRemoteEnv c4State 0 100
    "acme" "vpc" "aws" "shared" (some "vpc") c4State [] (by decide)
    (by
      intro k w ts hmem
      have hts : ts = 0 := congrArg (fun e => e.2.2) (List.mem_singleton.mp hmem)
      rw [hts]
      decide)

/-- Claim C5: whenever `_resolve_module_location` fails to locate a
coordinate (repository component `None`), the negative result is bound to the
location key in the flat cache of the resulting state (stored by the same
`_set_to_cache` and hence subject to the same TTL as positive results), and a
second call for the same coordinate — before any entry expires — returns the
same unresolved value without performing any remote call. -/
theorem c5_negative_caching (st : Settings) (env : Env) (c : CacheState)
    (now : Nat) (ns name provider : String) (p : Option String) (c2 : CacheState)
    (calls : List RemoteCall)
    (h1 : resolveModuleLocation st env c now ns name provider
      = ((none, p), c2, calls)) :
    (∃ ts : Nat, entryFind (locationKey ns name provider) c2.flat
        = some ((none, p), ts)) ∧
    ∀ now2 : Nat,
      (∀ k : String, ∀ w : LocVal, ∀ ts : Nat,
        (k, w, ts) ∈ c2.flat → now2 - ts < cacheTTL) →
      resolveModuleLocation st env c2 now2 ns name provider = ((none, p), c2, []) := by
  obtain ⟨hstr, hcase⟩ := resolve_cases st env c now ns name provider (none, p) c2
    calls h1
  rcases hcase with ⟨m, hsl, hv, hc2⟩ | ⟨hsl, ts, hfind⟩
  · exact absurd (congrArg Prod.fst hv) (by simp)
  · exact ⟨⟨ts, hfind⟩, fun now2 hfresh =>
      resolve_second_call st env c now now2 ns name provider (none, p) c2 calls h1
        hfresh⟩

/-- A cache state holding one fresh negative resolution, for the C5 witness. -/
def c5State : CacheState :=
  ⟨[("location:acme:nope:aws", ((none, none) : LocVal), 0)], []⟩

/-- Witness for C5: the negative entry is present, and a second call returns
unresolved with no remote call. -/
theorem c5_negative_caching_witness :
    (∃ ts : Nat, entryFind (locationKey "acme" "nope" "aws") c5State.flat
        = some (((none, none) : LocVal), ts)) ∧
    resolveModuleLocation ⟨some "acme", none, some "shared"⟩ noRemoteEnv c5State 100
        "acme" "nope" "aws" = (((none, none) : LocVal), c5State, []) :=
  have h := c5_negative_caching ⟨some "acme", none, some "shared"⟩ noRemoteEnv
    c5State 0 "acme" "nope" "aws" none c5State [] (by decide)
  ⟨h.1, h.2 100 (by
    intro k w ts hmem
    have hts : ts = 0 := congrArg (fun e => e.2.2) (List.mem_singleton.mp hmem)
    rw [hts]
    decide)⟩

theorem splitChars_ne_nil (sep : Char) (l : List Char) : splitChars sep l ≠ [] := by
  cases l with
  | nil => simp [splitChars]
  | cons c cs =>
    rw [splitChars]
    by_cases h : c = sep
    · simp [h]
    · rw [if_neg h]
      cases splitChars sep cs with
      | nil => simp
      | cons a as => simp

theorem joinSlash_cons_prefix (a : String) (l : List String) :
    ∃ t, (joinSlash (a :: l)).toList = a.toList ++ t := by
  cases l with
  | nil => exact ⟨[], by simp [joinSlash]⟩
  | cons b rest =>
    refine ⟨'/' :: (joinSlash (b :: rest)).toList, ?_⟩
    show (a ++ "/" ++ joinSlash (b :: rest)).toList = _
    rw [toListAppend, toListAppend, List.append_assoc]
    rfl

/-- A path under `modules/` has a containing directory that starts with
`modules` (it is `modules` itself or `modules/...`). -/
theorem dirname_startsWith_modules (p : String)
    (hp : pyStartsWith p "modules/" = true) :
    pyStartsWith (dirnameOf p) "modules" = true := by
  obtain ⟨t, ht⟩ := (pyStartsWith_iff_exists _ _).mp hp
  have hchars : p.toList = "modules".toList ++ '/' :: t := by
    rw [ht]
    have e : ("modules/".toList : List Char) = "modules".toList ++ ['/'] := by decide
    rw [e, List.append_assoc]
    rfl
  have hsplit : pySplit p '/' = "modules" :: (splitChars '/' t).map String.mk := by
    unfold pySplit
    rw [hchars, splitChars_append_sep '/' _ _ (by decide)]
    simp only [List.map_cons]
    rw [mkToList]
  unfold dirnameOf
  rw [hsplit]
  have hrest : (splitChars '/' t).map String.mk ≠ [] := by
    intro hc
    exact splitChars_ne_nil '/' t (List.map_eq_nil_iff.mp hc)
  rw [List.dropLast_cons_of_ne_nil hrest]
  obtain ⟨u, hu⟩ := joinSlash_cons_prefix "modules" (((splitChars '/' t).map String.mk).dropLast)
  exact pyStartsWith_of_toList_append _ _ u hu

theorem tfMatchRel_inv (name : String) (it : TreeItem) (r : String)
    (h : tfMatchRel name it = some r) :
    it.type = "blob" ∧ pyEndsWith it.path ".tf" = true ∧
    dirnameOf it.path ≠ "" ∧ pyStartsWith (dirnameOf it.path) "modules" = true ∧
    stripModulesSlash (dirnameOf it.path) ≠ "" ∧
    flattenRel (stripModulesSlash (dirnameOf it.path)) = name ∧
    r = stripModulesSlash (dirnameOf it.path) := by
  simp only [tfMatchRel] at h
  by_cases h1 : it.type = "blob" ∧ pyEndsWith it.path ".tf" = true
  · rw [if_pos h1] at h
    by_cases h2 : dirnameOf it.path ≠ "" ∧ pyStartsWith (dirnameOf it.path) "modules" = true
    · rw [if_pos h2] at h
      by_cases h3 : stripModulesSlash (dirnameOf it.path) ≠ "" ∧
          flattenRel (stripModulesSlash (dirnameOf it.path)) = name
      · rw [if_pos h3] at h
        exact ⟨h1.1, h1.2, h2.1, h2.2, h3.1, h3.2, (Option.some.inj h).symm⟩
      · rw [if_neg h3] at h
        exact absurd h (by simp)
    · rw [if_neg h2] at h
      exact absurd h (by simp)
  · rw [if_neg h1] at h
    exact absurd h (by simp)

theorem tfDirOf_inv (it : TreeItem) (mp2 : String) (h : tfDirOf it = some mp2) :
    pyStartsWith it.path "modules/" = true ∧ it.type = "blob" ∧
    pyEndsWith it.path ".tf" = true ∧ dirnameOf it.path = mp2 ∧ mp2 ≠ "" := by
  simp only [tfDirOf] at h
  by_cases h1 : pyStartsWith it.path "modules/" = true ∧ it.type = "blob" ∧
      pyEndsWith it.path ".tf" = true
  · rw [if_pos h1] at h
    by_cases h2 : dirnameOf it.path ≠ ""
    · rw [if_pos h2] at h
      have hmp := Option.some.inj h
      exact ⟨h1.1, h1.2.1, h1.2.2, hmp, hmp ▸ h2⟩
    · rw [if_neg h2] at h
      exact absurd h (by simp)
  · rw [if_neg h1] at h
    exact absurd h (by simp)

theorem scanEntry_inv (owner repoName branch provider : String)
    (versions : List String) (mpath : String) (m : ModData)
    (h : scanEntry owner repoName branch provider versions mpath = some m) :
    stripModulesSlash mpath ≠ "" ∧
    ¬("examples" ∈ pySplit mpath '/' ∨ "fixtures" ∈ pySplit mpath '/' ∨
      "tests" ∈ pySplit mpath '/') ∧
    m = mkModData owner repoName branch provider versions mpath := by
  simp only [scanEntry] at h
  by_cases h1 : stripModulesSlash mpath = ""
  · rw [if_pos h1] at h
    exact absurd h (by simp)
  · rw [if_neg h1] at h
    by_cases h2 : "examples" ∈ pySplit mpath '/' ∨ "fixtures" ∈ pySplit mpath '/' ∨
        "tests" ∈ pySplit mpath '/'
    · rw [if_pos h2] at h
      exact absurd h (by simp)
    · rw [if_neg h2] at h
      exact ⟨h1, h2, (Option.some.inj h).symm⟩

theorem fileScan_eq_of_unique (name v : String) (tree : List TreeItem)
    (hex2 : ∃ it ∈ tree, tfMatchRel name it = some v)
    (huniq : ∀ it ∈ tree, ∀ r : String, tfMatchRel name it = some r → r = v) :
    fileScan name tree = some v := by
  induction tree with
  | nil =>
    obtain ⟨it, hit, _⟩ := hex2
    cases hit
  | cons a rest ih =>
    cases hm : tfMatchRel name a with
    | some r =>
      simp only [fileScan, hm]
      rw [huniq a (List.mem_cons_self _ _) r hm]
    | none =>
      simp only [fileScan, hm]
      apply ih
      · obtain ⟨it, hit, hv⟩ := hex2
        rcases List.mem_cons.mp hit with rfl | hit2
        · rw [hm] at hv
          exact absurd hv (by simp)
        · exact ⟨it, hit2, hv⟩
      · intro it hit r hr
        exact huniq it (List.mem_cons_of_mem _ hit) r hr

theorem startsWith_modules_of_slash (s : String)
    (h : pyStartsWith s "modules/" = true) : pyStartsWith s "modules" = true := by
  obtain ⟨t, ht⟩ := (pyStartsWith_iff_exists _ _).mp h
  apply pyStartsWith_of_toList_append s "modules" ('/' :: t)
  rw [ht]
  have e : ("modules/".toList : List Char) = "modules".toList ++ ['/'] := by decide
  rw [e, List.append_assoc]
  rfl

/-- Claim C8: the resolver's scan-and-match does not apply the
`examples`/`fixtures`/`tests` exclusion used by the Tree Scanner.  With cold
caches, an explicit shared repository whose tree holds a `.tf` file inside a
directory with an auxiliary segment, and that directory the unique file-based
match for the requested name, `_resolve_module_location` returns that
directory — while a scan of the same tree produces no record with that path,
so the directory never enters the Structured Cache. -/
theorem c8_resolver_ignores_aux_exclusion (st : Settings) (env : Env)
    (c : CacheState) (now : Nat) (ns name provider owner repo br : String)
    (versions : List String) (tree : List TreeItem) (d : TreeItem) (mp : String)
    (howner : getOwner st = some owner)
    (hmn : st.monorepo_name = some repo)
    (hsl : structuredLookup c.structured provider name = none)
    (hflat : entryFind (locationKey ns name provider) c.flat = none)
    (hbr : env.repoBranch owner repo = some br)
    (htree : env.repoTree owner repo br = some tree)
    (hd : d ∈ tree) (hblob : d.type = "blob")
    (htf : pyEndsWith d.path ".tf" = true)
    (hdir : dirnameOf d.path = mp)
    (hmp : pyStartsWith mp "modules/" = true)
    (hex : "examples" ∈ pySplit mp '/' ∨ "fixtures" ∈ pySplit mp '/' ∨
      "tests" ∈ pySplit mp '/')
    (hrel : flattenRel (stripModulesSlash mp) = name)
    (hrelne : stripModulesSlash mp ≠ "")
    (huniq : ∀ it ∈ tree, ∀ r : String, tfMatchRel name it = some r →
      dirnameOf it.path = mp) :
    (resolveModuleLocation st env c now ns name provider).1
        = (some repo, some (stripModulesSlash mp)) ∧
    ∀ m ∈ scanRepoRecords owner repo br provider versions tree,
      m.path ≠ stripModulesSlash mp := by
  have hmpne : mp ≠ "" := by
    intro he
    rw [he] at hmp
    exact absurd hmp (by decide)
  have hmods : pyStartsWith mp "modules" = true := startsWith_modules_of_slash mp hmp
  have hmatch : tfMatchRel name d = some (stripModulesSlash mp) := by
    simp only [tfMatchRel]
    rw [hdir]
    rw [if_pos ⟨hblob, htf⟩, if_pos ⟨hmpne, hmods⟩, if_pos ⟨hrelne, hrel⟩]
  have huniq2 : ∀ it ∈ tree, ∀ r : String, tfMatchRel name it = some r →
      r = stripModulesSlash mp := by
    intro it hit r hr
    have hinv := tfMatchRel_inv name it r hr
    rw [huniq it hit r hr] at hinv
    exact hinv.2.2.2.2.2.2
  have hfs : fileScan name tree = some (stripModulesSlash mp) :=
    fileScan_eq_of_unique name _ tree ⟨d, hd, hmatch⟩ huniq2
  have hget := cacheGet_of_entryFind_none now (locationKey ns name provider) c.flat
    hflat
  have hfr : resolveFresh st env ns name provider
      = ((some repo, some (stripModulesSlash mp)),
         [RemoteCall.repoGet owner repo, RemoteCall.treeGet owner repo br]) := by
    unfold resolveFresh
    simp [howner, hmn, scanRepos, hbr, htree, hfs]
  constructor
  · simp only [resolveModuleLocation, hsl, hget, hfr]
  · intro m hm
    unfold scanRepoRecords at hm
    rw [List.mem_filterMap] at hm
    obtain ⟨mp2, hmp2, hse⟩ := hm
    obtain ⟨hrel2ne, hnotex, hmeq⟩ :=
      scanEntry_inv owner repo br provider versions mp2 m hse
    intro hpath
    unfold modulePathsOf at hmp2
    rw [List.mem_dedup, List.mem_filterMap] at hmp2
    obtain ⟨it, hit, htd⟩ := hmp2
    obtain ⟨hps, hbl, het, hdn, hmp2ne⟩ := tfDirOf_inv it mp2 htd
    have hmods2 : pyStartsWith mp2 "modules" = true :=
      hdn ▸ dirname_startsWith_modules it.path hps
    have hm2 : m.path = stripModulesSlash mp2 := by
      rw [hmeq]
      rfl
    have heq : stripModulesSlash mp2 = stripModulesSlash mp := by
      rw [← hm2, hpath]
    have hmatch2 : tfMatchRel name it = some (stripModulesSlash mp2) := by
      simp only [tfMatchRel]
      rw [hdn]
      rw [if_pos ⟨hbl, het⟩, if_pos ⟨hmp2ne, hmods2⟩,
        if_pos ⟨hrel2ne, by rw [heq]; exact hrel⟩]
    have hd2 := huniq it hit _ hmatch2
    rw [hdn] at hd2
    subst hd2
    exact hnotex hex

/-- Environment for the C8 witness: one shared repository whose tree holds a
single `.tf` file inside `modules/examples/vpc`. -/
def c8Env : Env :=
  { orgRepos := none
    userRepos := none
    repoBranch := fun o r => if o = "acme" ∧ r = "shared" then some "main" else none
    repoTree := fun o r b =>
      if o = "acme" ∧ r = "shared" ∧ b = "main" then
        some [⟨"blob", "modules/examples/vpc/main.tf"⟩]
      else none }

/-- Witness for C8: the resolver returns `examples/vpc` for the name
`examples_vpc`, while the scanner produces no record with that path. -/
theorem c8_resolver_ignores_aux_exclusion_witness :
    (resolveModuleLocation ⟨some "acme", none, some "shared"⟩ c8Env ⟨[], []⟩ 0
        "acme" "examples_vpc" "aws").1
      = (some "shared", some (stripModulesSlash "modules/examples/vpc")) ∧
    ∀ m ∈ scanRepoRecords "acme" "shared" "main" "aws" []
        [⟨"blob", "modules/examples/vpc/main.tf"⟩],
      m.path ≠ stripModulesSlash "modules/examples/vpc" :=
  c8_resolver_ignores_aux_exclusion ⟨some "acme", none, some "shared"⟩ c8Env
    ⟨[], []⟩ 0 "acme" "examples_vpc" "aws" "acme" "shared" "main" []
    [⟨"blob", "modules/examples/vpc/main.tf"⟩]
    ⟨"blob", "modules/examples/vpc/main.tf"⟩ "modules/examples/vpc"
    (by decide) rfl (by decide) (by decide) (by decide) (by decide) (by decide)
    (by decide) (by decide) (by decide) (by decide) (by decide) (by decide)
    (by decide)
    (by
      intro it hit r hr
      rw [List.mem_singleton.mp hit]
      decide)
